import Mathlib

/-!
Verification of the worker-pool core of the `webserver` crate
(`src/src/lib.rs`): the `ThreadPool` / `Worker` / `Message` machinery.

The Rust source is shallowly embedded as follows.

* `Message` is the source enum `Message { NewJob(Job), Terminate }`.
  A `Job` (`Box<dyn FnOnce() + Send>`) is opaque; we identify each job by a
  `Nat` id and, where a claim is about job behaviour, model whether a given
  job panics by an environment function `panics : JobId → Bool`.
* `ThreadPool.new` is modelled as a pure function that also returns the list
  of observable effects (assertion failure, channel creation, thread spawns)
  in program order; a panic is the `none` result.
* The mpsc channel is a `Channel` record: a FIFO `queue` of undelivered
  messages plus a flag saying whether the receive side is still alive
  (`Sender::send` fails exactly when it is not).
* `ThreadPool.execute` and the `Drop` implementation are modelled as pure
  functions from the channel state (plus, for `drop`, an oracle giving each
  thread's join result) to the new channel state and an event/log list.
* The body of the worker thread spawned in `Worker::new` is modelled twice:
  `workerLoop` runs the loop sequentially against a list of per-iteration
  lock/receive outcomes, and `Step` is a small-step interleaving semantics
  of all workers contending on the shared locked receiver, used for the
  concurrency claims.
-/

namespace Webserver

/-- Job identifier. Jobs are opaque boxed closures in the source
(`type Job = Box<dyn FnOnce() + Send + 'static>`); we refer to a job by an
abstract id. -/
abbrev JobId := Nat

/-- The source enum `Message { NewJob(Job), Terminate }`. -/
inductive Message where
  | newJob (j : JobId)
  | terminate
deriving DecidableEq, Repr

/-- The source struct `Worker { id: usize, thread: Option<JoinHandle<()>> }`.
The join handle is abstracted to a `Nat` token that the join-result oracle of
the drop model is consulted with. -/
structure Worker where
  id : Nat
  thread : Option Nat
deriving DecidableEq, Repr

/-- The source struct `ThreadPool { workers: Vec<Worker>, sender: ... }`.
The sender endpoint is modelled separately as a `Channel` value threaded
through the functions that use it, so the record keeps only the workers. -/
structure ThreadPool where
  workers : List Worker
deriving DecidableEq, Repr

/-- Observable effects of `ThreadPool::new`, in program order: the
`assert!(size > 0)` failing, the `mpsc::channel()` creation, and each
`thread::spawn` performed by the `for id in 0..size` loop. -/
inductive NewEvent where
  | assertFailed
  | channelCreated
  | workerSpawned (id : Nat)
deriving DecidableEq, Repr

/-- Model of `ThreadPool::new` (src/src/lib.rs): first `assert!(size > 0)`,
then create the channel, then spawn one `Worker` per id in `0..size` and
collect them. A panic is modelled as result `none`; the first component
records the effects that actually happened, in order. -/
def ThreadPool.new (size : Nat) : List NewEvent × Option ThreadPool :=
  if size > 0 then
    (NewEvent.channelCreated :: (List.range size).map NewEvent.workerSpawned,
      some { workers := (List.range size).map fun id => { id := id, thread := some id } })
  else
    ([NewEvent.assertFailed], none)

/-- Claim C4: `ThreadPool::new` fails with a panic (modelled as `none`)
exactly when `size = 0` (the only non-positive `usize`); for every positive
size it returns a pool without panicking. -/
theorem new_panics_iff_size_zero (size : Nat) :
    ((ThreadPool.new size).2 = none ↔ size = 0) ∧
    (0 < size → ∃ p, (ThreadPool.new size).2 = some p) := by
  constructor
  · constructor
    · intro h
      by_contra hne
      have hpos : 0 < size := Nat.pos_of_ne_zero hne
      simp [ThreadPool.new, hpos] at h
    · intro h
      subst h
      simp [ThreadPool.new]
  · intro h
    exact ⟨{ workers := (List.range size).map fun id => { id := id, thread := some id } },
      by simp [ThreadPool.new, h]⟩

/-- Witness for C4 at concrete sizes 0 and 2. -/
theorem new_panics_iff_size_zero_witness :
    ((ThreadPool.new 0).2 = none ↔ (0 : Nat) = 0) ∧
    (∃ p, (ThreadPool.new 2).2 = some p) :=
  ⟨(new_panics_iff_size_zero 0).1, (new_panics_iff_size_zero 2).2 (by decide)⟩

/-- Claim C9: for every positive `size` the constructed pool has exactly
`size` workers, whose ids are `0, 1, ..., size - 1` in order. -/
theorem new_yields_size_workers (size : Nat) (h : 0 < size) :
    ∃ p, (ThreadPool.new size).2 = some p ∧
      p.workers.length = size ∧
      p.workers.map Worker.id = List.range size := by
  refine ⟨{ workers := (List.range size).map fun id => { id := id, thread := some id } },
    by simp [ThreadPool.new, h], by simp, ?_⟩
  have hcomp : (Worker.id ∘ fun id => ({ id := id, thread := some id } : Worker)) = id := rfl
  rw [List.map_map, hcomp, List.map_id]

/-- Witness for C9 at size 3. -/
theorem new_yields_size_workers_witness :
    ∃ p, (ThreadPool.new 3).2 = some p ∧
      p.workers.length = 3 ∧
      p.workers.map Worker.id = List.range 3 :=
  new_yields_size_workers 3 (by decide)

/-- Claim C10: construction failure is side-effect free: with `size = 0` the
assertion fires first, so the event trace is exactly the assertion failure —
no channel is created and no worker thread is spawned. -/
theorem new_zero_is_side_effect_free :
    (ThreadPool.new 0).1 = [NewEvent.assertFailed] ∧
    NewEvent.channelCreated ∉ (ThreadPool.new 0).1 ∧
    ∀ id, NewEvent.workerSpawned id ∉ (ThreadPool.new 0).1 := by
  refine ⟨rfl, by decide, fun id => ?_⟩
  simp [ThreadPool.new]

/-- State of the mpsc channel: the FIFO queue of messages sent but not yet
received, and whether the receive side is still alive. `Sender::send` fails
(returns `Err(SendError)`) exactly when every receiver has been dropped. -/
structure Channel where
  queue : List Message
  receiverAlive : Bool
deriving DecidableEq, Repr

/-- mpsc `Sender::send`: enqueue the message at the back if the receiver is
alive, otherwise leave the channel unchanged and fail. The Bool is `true` on
`Ok(())` and `false` on `Err(SendError)`. -/
def send (ch : Channel) (m : Message) : Channel × Bool :=
  if ch.receiverAlive then ({ ch with queue := ch.queue ++ [m] }, true)
  else (ch, false)

/-- Log lines the pool and its workers print (`println!` / `eprintln!`),
abstracted to tags. -/
inductive LogLine where
  | sendJobFailed
  | gotJob (id : Nat)
  | toldToTerminate (id : Nat)
  | channelDisconnected (id : Nat)
  | lockFailed (id : Nat)
deriving DecidableEq, Repr

/-- Model of `ThreadPool::execute`: box the closure as `NewJob` and send it;
if the send fails, print the error and return normally. The function is
total, so the call always returns to the caller with no panic and no error
value. -/
def ThreadPool.execute (ch : Channel) (j : JobId) : Channel × List LogLine :=
  let r := send ch (Message.newJob j)
  if r.2 then (r.1, []) else (r.1, [LogLine.sendJobFailed])

/-- Claim C7: `execute` is fire-and-forget. While the receiver is alive it
enqueues `NewJob(job)` at the back of the queue — the job is still queued,
not yet run — and produces no error output; if the send fails the channel is
untouched, the failure is logged, and the call still returns normally (the
model function is total and its result is exactly the logged-and-swallowed
outcome, with no panic and no error value propagated). -/
theorem execute_fire_and_forget (ch : Channel) (j : JobId) :
    (ch.receiverAlive = true →
      ThreadPool.execute ch j =
        ({ ch with queue := ch.queue ++ [Message.newJob j] }, [])) ∧
    (ch.receiverAlive = false →
      ThreadPool.execute ch j = (ch, [LogLine.sendJobFailed])) := by
  constructor
  · intro h
    simp [ThreadPool.execute, send, h]
  · intro h
    simp [ThreadPool.execute, send, h]

/-- Witness for C7: a live channel enqueues, a dead channel logs and
returns. -/
theorem execute_fire_and_forget_witness :
    ThreadPool.execute { queue := [], receiverAlive := true } 7 =
      ({ queue := [Message.newJob 7], receiverAlive := true }, []) ∧
    ThreadPool.execute { queue := [], receiverAlive := false } 7 =
      ({ queue := [], receiverAlive := false }, [LogLine.sendJobFailed]) :=
  ⟨(execute_fire_and_forget { queue := [], receiverAlive := true } 7).1 rfl,
   (execute_fire_and_forget { queue := [], receiverAlive := false } 7).2 rfl⟩

/-- Events observable during `Drop for ThreadPool`, in program order:
the send of each `Terminate` (with its outcome), the per-worker shutdown
log line, and each join attempt with its outcome. -/
inductive DropEvent where
  | sendingAllLog
  | sentTerminate
  | sendTerminateFailed
  | shuttingDownLog (id : Nat)
  | joined (id : Nat)
  | joinFailed (id : Nat)
deriving DecidableEq, Repr

/-- The first loop of `drop`: `for _ in &self.workers { ... send(Terminate) }`,
one send attempt per worker; a failed send is logged and the loop continues. -/
def sendAll (ch : Channel) : Nat → Channel × List DropEvent
  | 0 => (ch, [])
  | n + 1 =>
    let r := send ch Message.terminate
    let ev := if r.2 then DropEvent.sentTerminate else DropEvent.sendTerminateFailed
    let rest := sendAll r.1 n
    (rest.1, ev :: rest.2)

/-- The second loop of `drop`: for each worker in order, print the shutdown
line, `take()` the thread handle, and if it was present join it; a failed
join is logged and the loop continues with the next worker. `joinResult`
is the oracle saying whether joining a given thread handle succeeds. -/
def joinAll (joinResult : Nat → Bool) : List Worker → List DropEvent
  | [] => []
  | w :: rest =>
    DropEvent.shuttingDownLog w.id ::
      ((match w.thread with
        | some t => [if joinResult t then DropEvent.joined w.id else DropEvent.joinFailed w.id]
        | none => []) ++ joinAll joinResult rest)

/-- Model of `Drop for ThreadPool`: print the banner, send one `Terminate`
per worker (first loop, all sends), then join every worker in order (second
loop, all joins). -/
def ThreadPool.dropPool (p : ThreadPool) (ch : Channel) (joinResult : Nat → Bool) :
    Channel × List DropEvent :=
  let s := sendAll ch p.workers.length
  (s.1, DropEvent.sendingAllLog :: s.2 ++ joinAll joinResult p.workers)

/-- Recognizer for a `Terminate` send attempt among drop events. -/
def isTerminateSend : DropEvent → Bool
  | DropEvent.sentTerminate => true
  | DropEvent.sendTerminateFailed => true
  | _ => false

/-- The worker id of a join attempt, if the event is one. -/
def joinAttemptId : DropEvent → Option Nat
  | DropEvent.joined i => some i
  | DropEvent.joinFailed i => some i
  | _ => none

/-- On a live channel, the send loop enqueues exactly `n` Terminates and
every send succeeds. -/
theorem sendAll_alive (ch : Channel) (n : Nat) (h : ch.receiverAlive = true) :
    sendAll ch n =
      ({ queue := ch.queue ++ List.replicate n Message.terminate, receiverAlive := true },
        List.replicate n DropEvent.sentTerminate) := by
  induction n generalizing ch with
  | zero =>
    cases ch with
    | mk q alive => simp at h; simp [sendAll, h]
  | succ n ih =>
    have hsend : send ch Message.terminate =
        ({ ch with queue := ch.queue ++ [Message.terminate] }, true) := by
      simp [send, h]
    simp only [sendAll, hsend]
    rw [ih { ch with queue := ch.queue ++ [Message.terminate] } h]
    simp [List.replicate_succ, List.append_assoc]

/-- Every event of the send loop is a Terminate send attempt. -/
theorem sendAll_events_are_sends (ch : Channel) (n : Nat) :
    ∀ e ∈ (sendAll ch n).2, isTerminateSend e = true := by
  induction n generalizing ch with
  | zero => intro e he; simp [sendAll] at he
  | succ n ih =>
    intro e he
    simp only [sendAll, List.mem_cons] at he
    rcases he with rfl | he
    · by_cases hok : (send ch Message.terminate).2 <;> simp [hok, isTerminateSend]
    · exact ih _ e he

/-- A Terminate send attempt is never a join attempt. -/
theorem sendAll_no_join_attempts (ch : Channel) (n : Nat) :
    (sendAll ch n).2.filterMap joinAttemptId = [] := by
  rw [List.filterMap_eq_nil_iff]
  intro e he
  have := sendAll_events_are_sends ch n e he
  cases e <;> simp_all [isTerminateSend, joinAttemptId]

/-- The join loop contains no Terminate send attempts. -/
theorem joinAll_no_sends (joinResult : Nat → Bool) (ws : List Worker) :
    ∀ e ∈ joinAll joinResult ws, isTerminateSend e = false := by
  induction ws with
  | nil => intro e he; simp [joinAll] at he
  | cons w rest ih =>
    intro e he
    simp only [joinAll, List.mem_cons, List.mem_append] at he
    rcases he with rfl | he | he
    · rfl
    · cases hth : w.thread with
      | none => simp [hth] at he
      | some t =>
        simp only [hth] at he
        by_cases hj : joinResult t <;> simp [hj] at he <;> subst he <;> rfl
    · exact ih e he

/-- The join loop attempts to join each worker that has a thread handle
exactly once, in pool order, whatever the join outcomes are. -/
theorem joinAll_attempts (joinResult : Nat → Bool) (ws : List Worker)
    (hth : ∀ w ∈ ws, w.thread.isSome) :
    (joinAll joinResult ws).filterMap joinAttemptId = ws.map Worker.id := by
  induction ws with
  | nil => simp [joinAll]
  | cons w rest ih =>
    have hw : w.thread.isSome := hth w (List.mem_cons_self w rest)
    cases hthw : w.thread with
    | none => rw [hthw] at hw; simp at hw
    | some t =>
      have hrest : ∀ x ∈ rest, x.thread.isSome := fun x hx => hth x (List.mem_cons_of_mem w hx)
      by_cases hj : joinResult t <;>
        simp [joinAll, hthw, hj, List.filterMap_cons, List.filterMap_append,
          joinAttemptId, ih hrest]

/-- A worker whose join fails still gets its failure logged. -/
theorem joinAll_logs_failures (joinResult : Nat → Bool) (ws : List Worker) :
    ∀ w ∈ ws, ∀ t, w.thread = some t → joinResult t = false →
      DropEvent.joinFailed w.id ∈ joinAll joinResult ws := by
  induction ws with
  | nil => intro w hw; simp at hw
  | cons x rest ih =>
    intro w hw t hwt hjf
    rcases List.mem_cons.mp hw with rfl | hw
    · simp [joinAll, hwt, hjf]
    · exact List.mem_cons_of_mem _ (List.mem_append_right _ (ih w hw t hwt hjf))

/-- Claim C2: on teardown of a pool whose channel is still open, the pool
enqueues exactly one `Terminate` per worker (so the number of Terminates sent
equals the number of workers), all of the send attempts happen before any
join attempt, and then every worker is joined exactly once, sequentially in
pool order. -/
theorem drop_sends_one_terminate_per_worker_then_joins (p : ThreadPool) (ch : Channel)
    (joinResult : Nat → Bool)
    (halive : ch.receiverAlive = true)
    (hth : ∀ w ∈ p.workers, w.thread.isSome) :
    (ThreadPool.dropPool p ch joinResult).1.queue =
        ch.queue ++ List.replicate p.workers.length Message.terminate ∧
    ∃ sends joins,
      (ThreadPool.dropPool p ch joinResult).2 = sends ++ joins ∧
      sends.countP isTerminateSend = p.workers.length ∧
      (∀ e ∈ joins, isTerminateSend e = false) ∧
      sends.filterMap joinAttemptId = [] ∧
      joins.filterMap joinAttemptId = p.workers.map Worker.id := by
  constructor
  · simp [ThreadPool.dropPool, sendAll_alive ch p.workers.length halive]
  · refine ⟨DropEvent.sendingAllLog :: (sendAll ch p.workers.length).2,
      joinAll joinResult p.workers, ?_, ?_, ?_, ?_, ?_⟩
    · simp [ThreadPool.dropPool]
    · rw [sendAll_alive ch p.workers.length halive]
      simp [List.countP_cons, isTerminateSend, List.countP_replicate]
    · exact joinAll_no_sends joinResult p.workers
    · simp [List.filterMap_cons, joinAttemptId, sendAll_no_join_attempts]
    · exact joinAll_attempts joinResult p.workers hth

/-- Witness for C2: a two-worker pool on a live channel. -/
theorem drop_sends_one_terminate_per_worker_then_joins_witness :
    (ThreadPool.dropPool { workers := [{ id := 0, thread := some 0 }, { id := 1, thread := some 1 }] }
        { queue := [], receiverAlive := true } (fun _ => true)).1.queue =
      [] ++ List.replicate 2 Message.terminate ∧
    ∃ sends joins,
      (ThreadPool.dropPool { workers := [{ id := 0, thread := some 0 }, { id := 1, thread := some 1 }] }
          { queue := [], receiverAlive := true } (fun _ => true)).2 = sends ++ joins ∧
      sends.countP isTerminateSend = 2 ∧
      (∀ e ∈ joins, isTerminateSend e = false) ∧
      sends.filterMap joinAttemptId = [] ∧
      joins.filterMap joinAttemptId = [0, 1] :=
  drop_sends_one_terminate_per_worker_then_joins
    { workers := [{ id := 0, thread := some 0 }, { id := 1, thread := some 1 }] }
    { queue := [], receiverAlive := true } (fun _ => true) rfl (by decide)

/-- Claim C8: shutdown is best-effort-complete: whatever the join outcomes
are — including every join failing — every worker's join is attempted exactly
once, and each worker whose join fails has the failure logged for it. -/
theorem drop_join_failures_do_not_abort (p : ThreadPool) (ch : Channel)
    (joinResult : Nat → Bool)
    (hth : ∀ w ∈ p.workers, w.thread.isSome) :
    (ThreadPool.dropPool p ch joinResult).2.filterMap joinAttemptId =
        p.workers.map Worker.id ∧
    (∀ w ∈ p.workers, ∀ t, w.thread = some t → joinResult t = false →
      DropEvent.joinFailed w.id ∈ (ThreadPool.dropPool p ch joinResult).2) := by
  constructor
  · simp [ThreadPool.dropPool, List.filterMap_cons, joinAttemptId,
      List.filterMap_append, sendAll_no_join_attempts,
      joinAll_attempts joinResult p.workers hth]
  · intro w hw t hwt hjf
    have := joinAll_logs_failures joinResult p.workers w hw t hwt hjf
    simp [ThreadPool.dropPool, List.mem_append, this]

/-- Witness for C8: both joins fail, both are still attempted and both
failures are logged. -/
theorem drop_join_failures_do_not_abort_witness :
    (ThreadPool.dropPool { workers := [{ id := 0, thread := some 0 }, { id := 1, thread := some 1 }] }
        { queue := [], receiverAlive := true } (fun _ => false)).2.filterMap joinAttemptId =
      [0, 1] ∧
    (∀ w ∈ [({ id := 0, thread := some 0 } : Worker), { id := 1, thread := some 1 }],
      ∀ t, w.thread = some t → (fun _ => false) t = false →
        DropEvent.joinFailed w.id ∈
          (ThreadPool.dropPool { workers := [{ id := 0, thread := some 0 }, { id := 1, thread := some 1 }] }
            { queue := [], receiverAlive := true } (fun _ => false)).2) :=
  drop_join_failures_do_not_abort
    { workers := [{ id := 0, thread := some 0 }, { id := 1, thread := some 1 }] }
    { queue := [], receiverAlive := true } (fun _ => false) (by decide)

/-- Outcome of one iteration of the worker loop, as observed at the
`receiver.lock()` / `guard.recv()` site: the lock failed (poisoned mutex),
the receive failed (channel disconnected), or a message arrived. -/
inductive Iter where
  | lockErr
  | recvErr
  | msg (m : Message)
deriving DecidableEq, Repr

/-- Why the worker thread ended, if it did. -/
inductive ExitReason where
  | toldToTerminate
  | channelDisconnected
  | lockFailed
  | jobPanicked (j : JobId)
deriving DecidableEq, Repr

/-- Result of running the worker loop against a list of iteration outcomes:
the jobs run to completion in order, the log lines printed, and the exit
reason — `none` meaning the list was exhausted with the worker still alive
and blocked waiting on the channel. -/
structure LoopResult where
  executed : List JobId
  logs : List LogLine
  exit : Option ExitReason
deriving DecidableEq, Repr

/-- Model of the loop body spawned in `Worker::new`, run sequentially against
a list of per-iteration lock/receive outcomes. A lock failure or a receive
failure prints and breaks; `Terminate` prints and breaks; `NewJob(job)`
prints and invokes the job — if the job returns normally the loop continues
with the next iteration, and if the job panics the unguarded call lets the
panic unwind the thread (there is no `catch_unwind` around `job()` in the
source), ending the loop at once. `panics j` says whether job `j` panics. -/
def workerLoop (id : Nat) (panics : JobId → Bool) : List Iter → LoopResult
  | [] => { executed := [], logs := [], exit := none }
  | Iter.lockErr :: _ =>
    { executed := [], logs := [LogLine.lockFailed id], exit := some ExitReason.lockFailed }
  | Iter.recvErr :: _ =>
    { executed := [], logs := [LogLine.channelDisconnected id],
      exit := some ExitReason.channelDisconnected }
  | Iter.msg Message.terminate :: _ =>
    { executed := [], logs := [LogLine.toldToTerminate id],
      exit := some ExitReason.toldToTerminate }
  | Iter.msg (Message.newJob j) :: rest =>
    if panics j then
      { executed := [], logs := [LogLine.gotJob id], exit := some (ExitReason.jobPanicked j) }
    else
      let r := workerLoop id panics rest
      { executed := j :: r.executed, logs := LogLine.gotJob id :: r.logs, exit := r.exit }

/-- Claim C3: the worker loop is exactly the {Waiting, Running, Terminated}
state machine. Receiving `NewJob(job)` (for a job that returns normally)
runs the job synchronously and then continues the loop on the remaining
iterations, i.e. returns to waiting on the channel; receiving `Terminate`
logs and exits, ignoring everything after it; a receive failure
(disconnected channel) or lock failure (poisoned mutex) logs and exits
rather than retrying. -/
theorem worker_loop_state_machine (id : Nat) (panics : JobId → Bool)
    (j : JobId) (rest : List Iter) (hj : panics j = false) :
    (workerLoop id panics (Iter.msg (Message.newJob j) :: rest) =
      { executed := j :: (workerLoop id panics rest).executed,
        logs := LogLine.gotJob id :: (workerLoop id panics rest).logs,
        exit := (workerLoop id panics rest).exit }) ∧
    (workerLoop id panics (Iter.msg Message.terminate :: rest) =
      { executed := [], logs := [LogLine.toldToTerminate id],
        exit := some ExitReason.toldToTerminate }) ∧
    (workerLoop id panics (Iter.recvErr :: rest) =
      { executed := [], logs := [LogLine.channelDisconnected id],
        exit := some ExitReason.channelDisconnected }) ∧
    (workerLoop id panics (Iter.lockErr :: rest) =
      { executed := [], logs := [LogLine.lockFailed id],
        exit := some ExitReason.lockFailed }) := by
  refine ⟨?_, rfl, rfl, rfl⟩
  simp [workerLoop, hj]

/-- Witness for C3 at a concrete run: job 7 runs, then the worker takes the
`Terminate` of the next iteration. -/
theorem worker_loop_state_machine_witness :
    (workerLoop 0 (fun _ => false) (Iter.msg (Message.newJob 7) :: [Iter.msg Message.terminate]) =
      { executed := 7 :: (workerLoop 0 (fun _ => false) [Iter.msg Message.terminate]).executed,
        logs := LogLine.gotJob 0 :: (workerLoop 0 (fun _ => false) [Iter.msg Message.terminate]).logs,
        exit := (workerLoop 0 (fun _ => false) [Iter.msg Message.terminate]).exit }) ∧
    (workerLoop 0 (fun _ => false) (Iter.msg Message.terminate :: [Iter.msg Message.terminate]) =
      { executed := [], logs := [LogLine.toldToTerminate 0],
        exit := some ExitReason.toldToTerminate }) ∧
    (workerLoop 0 (fun _ => false) (Iter.recvErr :: [Iter.msg Message.terminate]) =
      { executed := [], logs := [LogLine.channelDisconnected 0],
        exit := some ExitReason.channelDisconnected }) ∧
    (workerLoop 0 (fun _ => false) (Iter.lockErr :: [Iter.msg Message.terminate]) =
      { executed := [], logs := [LogLine.lockFailed 0],
        exit := some ExitReason.lockFailed }) :=
  worker_loop_state_machine 0 (fun _ => false) 7 [Iter.msg Message.terminate] rfl

/-- Counterexample to claim C6 as stated. The claim says that after a job
faults (panics inside its body) the worker returns to the Waiting state and
its thread survives. On the code, `job()` is called with no fault boundary,
so the panic unwinds the thread: with a single delivered job that panics,
the worker's exit reason is `jobPanicked` — the thread ended — whereas a
worker back in Waiting (as the claim requires) would have exit reason
`none`. -/
theorem faulting_job_kills_worker_cex :
    (workerLoop 0 (fun _ => true) [Iter.msg (Message.newJob 3)]).exit =
      some (ExitReason.jobPanicked 3) ∧
    ¬ (workerLoop 0 (fun _ => true) [Iter.msg (Message.newJob 3)]).exit = none := by
  constructor
  · rfl
  · intro h
    simp [workerLoop] at h

/-- Claim C6 (amended): when a received job faults, the fault is not
contained by the call boundary: the worker thread terminates early instead
of returning to Waiting, the faulting job is not recorded as completed and
is not retried, and no later message is processed by that worker. -/
theorem faulting_job_terminates_worker (id : Nat) (panics : JobId → Bool)
    (j : JobId) (rest : List Iter) (hp : panics j = true) :
    workerLoop id panics (Iter.msg (Message.newJob j) :: rest) =
      { executed := [], logs := [LogLine.gotJob id],
        exit := some (ExitReason.jobPanicked j) } := by
  simp [workerLoop, hp]

/-- Witness for the amended C6: a panicking job followed by a queued
`Terminate` that the dead worker never gets to read. -/
theorem faulting_job_terminates_worker_witness :
    workerLoop 4 (fun _ => true) (Iter.msg (Message.newJob 9) :: [Iter.msg Message.terminate]) =
      { executed := [], logs := [LogLine.gotJob 4],
        exit := some (ExitReason.jobPanicked 9) } :=
  faulting_job_terminates_worker 4 (fun _ => true) 9 [Iter.msg Message.terminate] rfl

/-- Phase of one worker thread in the concurrent model of the loop body of
`Worker::new`: waiting to acquire the receiver lock, holding the lock inside
the receive call, running a dequeued job (the lock guard has been dropped at
the end of the `let message = ...` statement, before `job()` is called),
exited normally after `Terminate`, or dead from a lock/receive failure or a
panic escaping `job()`. -/
inductive Phase where
  | waiting
  | locked
  | running (j : JobId)
  | terminated
  | faulted
deriving DecidableEq, Repr

/-- Events recorded by the concurrent model: a message delivered to (dequeued
by) a worker, a job run to completion by a worker, a job panicking on a
worker. -/
inductive Event where
  | deliver (w : Nat) (m : Message)
  | complete (w : Nat) (j : JobId)
  | panicked (w : Nat) (j : JobId)
deriving DecidableEq, Repr

/-- Global configuration of the pool: the channel queue, each worker's phase
(worker `w` is `phases[w]`), who holds the receiver mutex, whether all
senders have been dropped, whether the mutex is poisoned, and the event
log. -/
structure Config where
  queue : List Message
  phases : List Phase
  holder : Option Nat
  closed : Bool
  poisoned : Bool
  log : List Event
deriving DecidableEq, Repr

/-- Interleaving small-step semantics of the worker loops contending on the
shared `Arc<Mutex<Receiver>>`. Each constructor is one atomic step of one
worker: acquiring the mutex; `lock()` returning `Err` on a poisoned mutex
(break); `recv()` returning a message while holding the lock, the guard
being dropped at the end of that statement, and the match dispatching on the
message; `recv()` returning `Err` once the channel is closed and drained
(break); `job()` returning normally (back to the top of the loop); `job()`
panicking (the unguarded panic unwinds the thread). -/
inductive Step : Config → Config → Prop where
  | acquire (c : Config) (w : Nat)
      (hw : c.phases[w]? = some Phase.waiting) (hl : c.holder = none) :
      Step c { c with phases := c.phases.set w Phase.locked, holder := some w }
  | lockFail (c : Config) (w : Nat)
      (hw : c.phases[w]? = some Phase.waiting) (hl : c.holder = none)
      (hp : c.poisoned = true) :
      Step c { c with phases := c.phases.set w Phase.faulted }
  | recvJob (c : Config) (w : Nat) (j : JobId) (q : List Message)
      (hw : c.phases[w]? = some Phase.locked) (hl : c.holder = some w)
      (hq : c.queue = Message.newJob j :: q) :
      Step c
        { c with
            queue := q
            phases := c.phases.set w (Phase.running j)
            holder := none
            log := c.log ++ [Event.deliver w (Message.newJob j)] }
  | recvTerm (c : Config) (w : Nat) (q : List Message)
      (hw : c.phases[w]? = some Phase.locked) (hl : c.holder = some w)
      (hq : c.queue = Message.terminate :: q) :
      Step c
        { c with
            queue := q
            phases := c.phases.set w Phase.terminated
            holder := none
            log := c.log ++ [Event.deliver w Message.terminate] }
  | recvFail (c : Config) (w : Nat)
      (hw : c.phases[w]? = some Phase.locked) (hl : c.holder = some w)
      (hq : c.queue = []) (hc : c.closed = true) :
      Step c { c with phases := c.phases.set w Phase.faulted, holder := none }
  | finish (c : Config) (w : Nat) (j : JobId)
      (hw : c.phases[w]? = some (Phase.running j)) :
      Step c
        { c with
            phases := c.phases.set w Phase.waiting
            log := c.log ++ [Event.complete w j] }
  | jobPanic (c : Config) (w : Nat) (j : JobId)
      (hw : c.phases[w]? = some (Phase.running j)) :
      Step c
        { c with
            phases := c.phases.set w Phase.faulted
            log := c.log ++ [Event.panicked w j] }

/-- Reflexive-transitive closure of `Step`. -/
inductive Reachable : Config → Config → Prop where
  | refl (c : Config) : Reachable c c
  | tail {a b c : Config} : Reachable a b → Step b c → Reachable a c

/-- The queue contents of a freshly constructed pool after the submission
phase: the jobs submitted by `execute`, in order, followed by the `n`
Terminates that `drop` sends — all sends go through the single FIFO
`Sender`, and every `execute` call happens before `drop` takes `&mut self`.
All `n` workers start waiting, the lock is free, no sender has been dropped,
the mutex is not poisoned, the log is empty. -/
def initConfig (jobs : List JobId) (n : Nat) : Config :=
  { queue := jobs.map Message.newJob ++ List.replicate n Message.terminate,
    phases := List.replicate n Phase.waiting,
    holder := none, closed := false, poisoned := false, log := [] }

/-- Recognizer for `Terminate` among messages. -/
def isTerminateMsg : Message → Bool
  | Message.terminate => true
  | _ => false

/-- Recognizer for `NewJob j` among messages. -/
def isJobMsg (j : JobId) : Message → Bool
  | Message.newJob i => i == j
  | _ => false

/-- The messages delivered so far, in delivery order, read off the log. -/
def deliveredMsgs : List Event → List Message
  | [] => []
  | Event.deliver _ m :: rest => m :: deliveredMsgs rest
  | Event.complete _ _ :: rest => deliveredMsgs rest
  | Event.panicked _ _ :: rest => deliveredMsgs rest

/-- Recognizer for a delivery of job `j`. -/
def isDeliverOf (j : JobId) : Event → Bool
  | Event.deliver _ (Message.newJob i) => i == j
  | _ => false

/-- Recognizer for a completion of job `j`. -/
def isCompleteOf (j : JobId) : Event → Bool
  | Event.complete _ i => i == j
  | _ => false

/-- Recognizer for a panic of job `j`. -/
def isPanicOf (j : JobId) : Event → Bool
  | Event.panicked _ i => i == j
  | _ => false

/-- Recognizer for a delivery of `Terminate`. -/
def isTermDeliver : Event → Bool
  | Event.deliver _ Message.terminate => true
  | _ => false

/-- Recognizer for the phase running job `j`. -/
def isRunning (j : JobId) : Phase → Bool
  | Phase.running i => i == j
  | _ => false

/-- Recognizer for the normally-terminated phase. -/
def isTerminated : Phase → Bool
  | Phase.terminated => true
  | _ => false

theorem deliveredMsgs_append (l₁ l₂ : List Event) :
    deliveredMsgs (l₁ ++ l₂) = deliveredMsgs l₁ ++ deliveredMsgs l₂ := by
  induction l₁ with
  | nil => rfl
  | cons e rest ih => cases e <;> simp [deliveredMsgs, ih]

theorem deliveredMsgs_countP_term (log : List Event) :
    (deliveredMsgs log).countP isTerminateMsg = log.countP isTermDeliver := by
  induction log with
  | nil => rfl
  | cons e rest ih =>
    cases e with
    | deliver w m =>
      cases m <;> simp [deliveredMsgs, List.countP_cons, isTerminateMsg, isTermDeliver, ih]
    | complete w j => simp [deliveredMsgs, List.countP_cons, isTermDeliver, ih]
    | panicked w j => simp [deliveredMsgs, List.countP_cons, isTermDeliver, ih]

theorem deliveredMsgs_countP_job (j : JobId) (log : List Event) :
    (deliveredMsgs log).countP (isJobMsg j) = log.countP (isDeliverOf j) := by
  induction log with
  | nil => rfl
  | cons e rest ih =>
    cases e with
    | deliver w m =>
      cases m <;> simp [deliveredMsgs, List.countP_cons, isJobMsg, isDeliverOf, ih]
    | complete w i => simp [deliveredMsgs, List.countP_cons, isDeliverOf, ih]
    | panicked w i => simp [deliveredMsgs, List.countP_cons, isDeliverOf, ih]

theorem countP_set_add {α : Type} (p : α → Bool) (l : List α) (i : Nat) (a : α)
    (h : i < l.length) :
    (l.set i a).countP p + (if p (l.get ⟨i, h⟩) then 1 else 0)
      = l.countP p + (if p a then 1 else 0) := by
  induction l generalizing i with
  | nil => simp at h
  | cons x xs ih =>
    cases i with
    | zero => simp [List.countP_cons]; omega
    | succ i =>
      have hi : i < xs.length := by simpa using h
      have := ih i hi
      simp only [List.set, List.countP_cons, List.get]
      omega

theorem countP_set_diff {α : Type} (p : α → Bool) (l : List α) (i : Nat) (a old : α)
    (hlt : i < l.length) (hget : l.get ⟨i, hlt⟩ = old) :
    (l.set i a).countP p + (if p old then 1 else 0)
      = l.countP p + (if p a then 1 else 0) := by
  have h := countP_set_add p l i a hlt
  rw [hget] at h
  exact h

theorem countP_set_same {α : Type} (p : α → Bool) (l : List α) (i : Nat) (a old : α)
    (hlt : i < l.length) (hget : l.get ⟨i, hlt⟩ = old) (hpa : p a = p old) :
    (l.set i a).countP p = l.countP p := by
  have h := countP_set_diff p l i a old hlt hget
  rw [hpa] at h
  omega

/-- Inductive invariant of the concurrent model, relative to the start
configuration: the worker count is fixed; the messages delivered so far
followed by the remaining queue are exactly the original queue (FIFO,
one consumption per message); every delivery of a job is accounted for by a
worker still running it, a completion, or a panic; normally terminated
workers correspond one-to-one to delivered Terminates; the mutex holder, if
any, is inside the receive critical section; and a worker that ever had a
job panic on it is dead. -/
structure Inv (s c : Config) : Prop where
  len : c.phases.length = s.phases.length
  fifo : deliveredMsgs c.log ++ c.queue = s.queue
  flow : ∀ j, c.log.countP (isDeliverOf j)
      = c.phases.countP (isRunning j) + c.log.countP (isCompleteOf j)
        + c.log.countP (isPanicOf j)
  term : c.phases.countP isTerminated = c.log.countP isTermDeliver
  lock : ∀ w, c.holder = some w → c.phases[w]? = some Phase.locked
  panicdead : ∀ w j, Event.panicked w j ∈ c.log → c.phases[w]? = some Phase.faulted

theorem inv_init (jobs : List JobId) (n : Nat) :
    Inv (initConfig jobs n) (initConfig jobs n) := by
  refine ⟨rfl, rfl, ?_, ?_, ?_, ?_⟩
  · intro j
    simp [initConfig, List.countP_replicate, isRunning]
  · simp [initConfig, List.countP_replicate, isTerminated]
  · intro w h
    simp [initConfig] at h
  · intro w j h
    simp [initConfig] at h

theorem inv_step {s a b : Config} (hInv : Inv s a) (h : Step a b) : Inv s b := by
  cases h with
  | acquire w hw hl =>
    obtain ⟨hlt, hget⟩ := List.getElem?_eq_some_iff.mp hw
    have hget' : a.phases.get ⟨w, hlt⟩ = Phase.waiting := by
      rw [List.get_eq_getElem]; exact hget
    refine ⟨?_, hInv.fifo, ?_, ?_, ?_, ?_⟩
    · simpa using hInv.len
    · intro j
      rw [countP_set_same (isRunning j) a.phases w Phase.locked Phase.waiting hlt hget' rfl]
      exact hInv.flow j
    · rw [countP_set_same isTerminated a.phases w Phase.locked Phase.waiting hlt hget' rfl]
      exact hInv.term
    · intro w' hw'
      have : w' = w := by simpa using hw'.symm
      subst this
      simp [List.getElem?_set_self hlt]
    · intro w' j hmem
      have hph := hInv.panicdead w' j hmem
      have hne : w ≠ w' := by
        intro he
        subst he
        rw [hw] at hph
        simp at hph
      simpa [List.getElem?_set_ne hne] using hph
  | lockFail w hw hl hp =>
    obtain ⟨hlt, hget⟩ := List.getElem?_eq_some_iff.mp hw
    have hget' : a.phases.get ⟨w, hlt⟩ = Phase.waiting := by
      rw [List.get_eq_getElem]; exact hget
    refine ⟨?_, hInv.fifo, ?_, ?_, ?_, ?_⟩
    · simpa using hInv.len
    · intro j
      rw [countP_set_same (isRunning j) a.phases w Phase.faulted Phase.waiting hlt hget' rfl]
      exact hInv.flow j
    · rw [countP_set_same isTerminated a.phases w Phase.faulted Phase.waiting hlt hget' rfl]
      exact hInv.term
    · intro w' hw'
      have hph := hInv.lock w' hw'
      have hne : w ≠ w' := by
        intro he
        subst he
        rw [hw] at hph
        simp at hph
      simpa [List.getElem?_set_ne hne] using hph
    · intro w' j hmem
      have hph := hInv.panicdead w' j hmem
      have hne : w ≠ w' := by
        intro he
        subst he
        rw [hw] at hph
        simp at hph
      simpa [List.getElem?_set_ne hne] using hph
  | recvJob w j' q hw hl hq =>
    obtain ⟨hlt, hget⟩ := List.getElem?_eq_some_iff.mp hw
    have hget' : a.phases.get ⟨w, hlt⟩ = Phase.locked := by
      rw [List.get_eq_getElem]; exact hget
    refine ⟨?_, ?_, ?_, ?_, ?_, ?_⟩
    · simpa using hInv.len
    · have hfifo := hInv.fifo
      rw [hq] at hfifo
      simpa [deliveredMsgs_append, deliveredMsgs, List.append_assoc] using hfifo
    · intro j
      have hdiff := countP_set_diff (isRunning j) a.phases w (Phase.running j') Phase.locked
        hlt hget'
      have hflow := hInv.flow j
      simp only [List.countP_append, isRunning] at hdiff ⊢
      by_cases hjj : j' = j <;>
        simp [hjj, isDeliverOf, isCompleteOf, isPanicOf, isRunning,
          List.countP_cons] at hdiff ⊢ <;>
        omega
    · have hsame := countP_set_same isTerminated a.phases w (Phase.running j') Phase.locked
        hlt hget' rfl
      rw [hsame]
      simp [List.countP_append, isTermDeliver, List.countP_cons]
      exact hInv.term
    · intro w' hw'
      simp at hw'
    · intro w' j hmem
      simp only [List.mem_append, List.mem_singleton] at hmem
      rcases hmem with hmem | hmem
      · have hph := hInv.panicdead w' j hmem
        have hne : w ≠ w' := by
          intro he
          subst he
          rw [hw] at hph
          simp at hph
        simpa [List.getElem?_set_ne hne] using hph
      · cases hmem
  | recvTerm w q hw hl hq =>
    obtain ⟨hlt, hget⟩ := List.getElem?_eq_some_iff.mp hw
    have hget' : a.phases.get ⟨w, hlt⟩ = Phase.locked := by
      rw [List.get_eq_getElem]; exact hget
    refine ⟨?_, ?_, ?_, ?_, ?_, ?_⟩
    · simpa using hInv.len
    · have hfifo := hInv.fifo
      rw [hq] at hfifo
      simpa [deliveredMsgs_append, deliveredMsgs, List.append_assoc] using hfifo
    · intro j
      have hsame := countP_set_same (isRunning j) a.phases w Phase.terminated Phase.locked
        hlt hget' rfl
      rw [hsame]
      have hflow := hInv.flow j
      simp [List.countP_append, isDeliverOf, isCompleteOf, isPanicOf, List.countP_cons]
      exact hflow
    · have hdiff := countP_set_diff isTerminated a.phases w Phase.terminated Phase.locked
        hlt hget'
      have hterm := hInv.term
      simp [isTerminated, List.countP_append, isTermDeliver, List.countP_cons] at hdiff ⊢
      omega
    · intro w' hw'
      simp at hw'
    · intro w' j hmem
      simp only [List.mem_append, List.mem_singleton] at hmem
      rcases hmem with hmem | hmem
      · have hph := hInv.panicdead w' j hmem
        have hne : w ≠ w' := by
          intro he
          subst he
          rw [hw] at hph
          simp at hph
        simpa [List.getElem?_set_ne hne] using hph
      · cases hmem
  | recvFail w hw hl hq hc =>
    obtain ⟨hlt, hget⟩ := List.getElem?_eq_some_iff.mp hw
    have hget' : a.phases.get ⟨w, hlt⟩ = Phase.locked := by
      rw [List.get_eq_getElem]; exact hget
    refine ⟨?_, hInv.fifo, ?_, ?_, ?_, ?_⟩
    · simpa using hInv.len
    · intro j
      rw [countP_set_same (isRunning j) a.phases w Phase.faulted Phase.locked hlt hget' rfl]
      exact hInv.flow j
    · rw [countP_set_same isTerminated a.phases w Phase.faulted Phase.locked hlt hget' rfl]
      exact hInv.term
    · intro w' hw'
      simp at hw'
    · intro w' j hmem
      have hph := hInv.panicdead w' j hmem
      have hne : w ≠ w' := by
        intro he
        subst he
        rw [hw] at hph
        simp at hph
      simpa [List.getElem?_set_ne hne] using hph
  | finish w j' hw =>
    obtain ⟨hlt, hget⟩ := List.getElem?_eq_some_iff.mp hw
    have hget' : a.phases.get ⟨w, hlt⟩ = Phase.running j' := by
      rw [List.get_eq_getElem]; exact hget
    refine ⟨?_, ?_, ?_, ?_, ?_, ?_⟩
    · simpa using hInv.len
    · have := hInv.fifo
      simp only [deliveredMsgs_append]
      simpa [deliveredMsgs] using this
    · intro j
      have hdiff := countP_set_diff (isRunning j) a.phases w Phase.waiting (Phase.running j')
        hlt hget'
      have hflow := hInv.flow j
      by_cases hjj : j' = j <;>
        simp [hjj, isRunning, isDeliverOf, isCompleteOf, isPanicOf,
          List.countP_append, List.countP_cons] at hdiff ⊢ <;>
        omega
    · have hsame := countP_set_same isTerminated a.phases w Phase.waiting (Phase.running j')
        hlt hget' rfl
      rw [hsame]
      simp [List.countP_append, isTermDeliver, List.countP_cons]
      exact hInv.term
    · intro w' hw'
      have hph := hInv.lock w' hw'
      have hne : w ≠ w' := by
        intro he
        subst he
        rw [hw] at hph
        simp at hph
      simpa [List.getElem?_set_ne hne] using hph
    · intro w' j hmem
      simp only [List.mem_append, List.mem_singleton] at hmem
      rcases hmem with hmem | hmem
      · have hph := hInv.panicdead w' j hmem
        have hne : w ≠ w' := by
          intro he
          subst he
          rw [hw] at hph
          simp at hph
        simpa [List.getElem?_set_ne hne] using hph
      · cases hmem
  | jobPanic w j' hw =>
    obtain ⟨hlt, hget⟩ := List.getElem?_eq_some_iff.mp hw
    have hget' : a.phases.get ⟨w, hlt⟩ = Phase.running j' := by
      rw [List.get_eq_getElem]; exact hget
    refine ⟨?_, ?_, ?_, ?_, ?_, ?_⟩
    · simpa using hInv.len
    · have := hInv.fifo
      simp only [deliveredMsgs_append]
      simpa [deliveredMsgs] using this
    · intro j
      have hdiff := countP_set_diff (isRunning j) a.phases w Phase.faulted (Phase.running j')
        hlt hget'
      have hflow := hInv.flow j
      by_cases hjj : j' = j <;>
        simp [hjj, isRunning, isDeliverOf, isCompleteOf, isPanicOf,
          List.countP_append, List.countP_cons] at hdiff ⊢ <;>
        omega
    · have hsame := countP_set_same isTerminated a.phases w Phase.faulted (Phase.running j')
        hlt hget' rfl
      rw [hsame]
      simp [List.countP_append, isTermDeliver, List.countP_cons]
      exact hInv.term
    · intro w' hw'
      have hph := hInv.lock w' hw'
      have hne : w ≠ w' := by
        intro he
        subst he
        rw [hw] at hph
        simp at hph
      simpa [List.getElem?_set_ne hne] using hph
    · intro w' j hmem
      simp only [List.mem_append, List.mem_singleton] at hmem
      rcases hmem with hmem | hmem
      · have hph := hInv.panicdead w' j hmem
        have hne : w ≠ w' := by
          intro he
          subst he
          rw [hw] at hph
          simp at hph
        simpa [List.getElem?_set_ne hne] using hph
      · rcases hmem with ⟨rfl, rfl⟩
        simp [List.getElem?_set_self hlt]

theorem inv_of_reachable {s c : Config} (hInit : Inv s s) (hr : Reachable s c) :
    Inv s c := by
  induction hr with
  | refl => exact hInit
  | tail _ hstep ih => exact inv_step ih hstep

/-- Claim C1: for any interleaving of the workers, starting from the queue
holding the submitted jobs followed by the `n` Terminates of shutdown
(distinct job ids, all `execute` calls preceding `drop`), in any
configuration where shutdown's joins have all returned — i.e. every worker
thread has ended, which for an all-`terminated` pool means each ended
normally — every submitted job was delivered to exactly one worker, was run
to completion exactly once, and no further step (in particular no job
execution) is possible after that point. -/
theorem submitted_job_runs_exactly_once (jobs : List JobId) (n : Nat) (c : Config)
    (hn : 0 < n) (hnd : jobs.Nodup)
    (hr : Reachable (initConfig jobs n) c)
    (hterm : ∀ p ∈ c.phases, p = Phase.terminated) :
    (∀ j ∈ jobs, c.log.countP (isDeliverOf j) = 1) ∧
    (∀ j ∈ jobs, c.log.countP (isCompleteOf j) = 1) ∧
    (∀ d, ¬ Step c d) := by
  have hI := inv_of_reachable (inv_init jobs n) hr
  have hlen : c.phases.length = n := by
    have := hI.len
    simpa [initConfig] using this
  have htermcount : c.phases.countP isTerminated = n := by
    have h1 : c.phases.countP isTerminated = c.phases.length :=
      List.countP_eq_length.mpr (fun p hp => by rw [hterm p hp]; rfl)
    rw [h1, hlen]
  have htermdel : c.log.countP isTermDeliver = n := by
    rw [← hI.term, htermcount]
  have hfifo := hI.fifo
  have hcnt := congrArg (List.countP isTerminateMsg) hfifo
  rw [List.countP_append, deliveredMsgs_countP_term] at hcnt
  have hrhs : ((initConfig jobs n).queue).countP isTerminateMsg = n := by
    simp [initConfig, List.countP_append, List.countP_map, List.countP_replicate,
      isTerminateMsg, Function.comp]
  have htermq : c.queue.countP isTerminateMsg = 0 := by omega
  have hqnil : c.queue = [] := by
    rcases List.eq_nil_or_concat c.queue with h | ⟨as, b, h⟩
    · exact h
    · exfalso
      rw [List.concat_eq_append] at h
      obtain ⟨m, rfl⟩ : ∃ m, n = m + 1 := ⟨n - 1, by omega⟩
      have hb : b = Message.terminate := by
        have h2 := hfifo
        rw [h] at h2
        rw [show (initConfig jobs (m + 1)).queue
            = (jobs.map Message.newJob ++ List.replicate m Message.terminate)
              ++ [Message.terminate] by
          simp [initConfig, List.replicate_succ', List.append_assoc]] at h2
        have h3 : (deliveredMsgs c.log ++ as) ++ [b]
            = (jobs.map Message.newJob ++ List.replicate m Message.terminate)
              ++ [Message.terminate] := by
          simpa [List.append_assoc] using h2
        have h4 := congrArg List.getLast? h3
        rw [List.getLast?_concat, List.getLast?_concat] at h4
        exact Option.some.inj h4
      have hbmem : Message.terminate ∈ c.queue := by
        rw [h, hb]
        exact List.mem_append_right as (List.mem_singleton.mpr rfl)
      have : 0 < c.queue.countP isTerminateMsg :=
        List.countP_pos_iff.mpr ⟨Message.terminate, hbmem, rfl⟩
      omega
  have hdel : deliveredMsgs c.log = (initConfig jobs n).queue := by
    have := hfifo
    rw [hqnil, List.append_nil] at this
    exact this
  have hdelcount : ∀ j ∈ jobs, c.log.countP (isDeliverOf j) = 1 := by
    intro j hj
    have hc1 := congrArg (List.countP (isJobMsg j)) hdel
    rw [deliveredMsgs_countP_job] at hc1
    rw [hc1]
    have hcount : jobs.count j = 1 := List.count_eq_one_of_mem hnd hj
    simp only [initConfig, List.countP_append, List.countP_map, List.countP_replicate]
    rw [show (isJobMsg j ∘ Message.newJob) = (· == j) from rfl]
    rw [show jobs.countP (· == j) = jobs.count j from rfl, hcount]
    simp [isJobMsg]
  have hrun : ∀ j, c.phases.countP (isRunning j) = 0 := by
    intro j
    rw [List.countP_eq_zero]
    intro p hp
    rw [hterm p hp]
    simp [isRunning]
  have hpan : ∀ j, c.log.countP (isPanicOf j) = 0 := by
    intro j
    rw [List.countP_eq_zero]
    intro e he
    cases e with
    | deliver w m => simp [isPanicOf]
    | complete w i => simp [isPanicOf]
    | panicked w i =>
      intro _
      have hph := hI.panicdead w i he
      have hmem := List.getElem?_mem hph
      have := hterm _ hmem
      simp at this
  refine ⟨hdelcount, ?_, ?_⟩
  · intro j hj
    have hflow := hI.flow j
    rw [hdelcount j hj, hrun j, hpan j] at hflow
    omega
  · intro d hstep
    cases hstep with
    | acquire w hw hl =>
      have := hterm _ (List.getElem?_mem hw)
      simp at this
    | lockFail w hw hl hp =>
      have := hterm _ (List.getElem?_mem hw)
      simp at this
    | recvJob w j' q hw hl hq =>
      have := hterm _ (List.getElem?_mem hw)
      simp at this
    | recvTerm w q hw hl hq =>
      have := hterm _ (List.getElem?_mem hw)
      simp at this
    | recvFail w hw hl hq hc =>
      have := hterm _ (List.getElem?_mem hw)
      simp at this
    | finish w j' hw =>
      have := hterm _ (List.getElem?_mem hw)
      simp at this
    | jobPanic w j' hw =>
      have := hterm _ (List.getElem?_mem hw)
      simp at this

/-- Start of the concrete witness trace for C1: one worker, one submitted
job with id 5, then the single Terminate of shutdown. -/
def cfg0 : Config := initConfig [5] 1

/-- Worker 0 has acquired the receiver lock. -/
def cfg1 : Config := { cfg0 with phases := cfg0.phases.set 0 Phase.locked, holder := some 0 }

/-- Worker 0 has received job 5 and released the lock. -/
def cfg2 : Config :=
  { cfg1 with
      queue := [Message.terminate]
      phases := cfg1.phases.set 0 (Phase.running 5)
      holder := none
      log := cfg1.log ++ [Event.deliver 0 (Message.newJob 5)] }

/-- Job 5 has run to completion; worker 0 is back to waiting. -/
def cfg3 : Config :=
  { cfg2 with
      phases := cfg2.phases.set 0 Phase.waiting
      log := cfg2.log ++ [Event.complete 0 5] }

/-- Worker 0 has re-acquired the lock. -/
def cfg4 : Config := { cfg3 with phases := cfg3.phases.set 0 Phase.locked, holder := some 0 }

/-- Worker 0 has received Terminate and exited; the pool is fully drained. -/
def cfg5 : Config :=
  { cfg4 with
      queue := []
      phases := cfg4.phases.set 0 Phase.terminated
      holder := none
      log := cfg4.log ++ [Event.deliver 0 Message.terminate] }

theorem reach_cfg5 : Reachable cfg0 cfg5 :=
  Reachable.tail
    (Reachable.tail
      (Reachable.tail
        (Reachable.tail
          (Reachable.tail (Reachable.refl cfg0)
            (Step.acquire cfg0 0 (by decide) (by decide)))
          (Step.recvJob cfg1 0 5 [Message.terminate] (by decide) (by decide) (by decide)))
        (Step.finish cfg2 0 5 (by decide)))
      (Step.acquire cfg3 0 (by decide) (by decide)))
    (Step.recvTerm cfg4 0 [] (by decide) (by decide) (by decide))

/-- Witness for C1 along the concrete five-step trace. -/
theorem submitted_job_runs_exactly_once_witness :
    (∀ j ∈ [5], cfg5.log.countP (isDeliverOf j) = 1) ∧
    (∀ j ∈ [5], cfg5.log.countP (isCompleteOf j) = 1) ∧
    (∀ d, ¬ Step cfg5 d) :=
  submitted_job_runs_exactly_once [5] 1 cfg5 (by decide) (by decide) reach_cfg5 (by decide)

/-- Claim C5: in every reachable configuration, the receiver mutex is held
only inside the receive critical section — whoever holds it is in the
`locked` phase, so in particular a worker running a job never holds the
lock — and no message is dequeued twice: the sequence of messages delivered
so far is an initial segment of the original FIFO queue, and with distinct
job ids no job is delivered to (dequeued by) more than one worker. -/
theorem receive_lock_discipline (jobs : List JobId) (n : Nat) (c : Config)
    (hnd : jobs.Nodup) (hr : Reachable (initConfig jobs n) c) :
    (∀ w, c.holder = some w → c.phases[w]? = some Phase.locked) ∧
    (∀ w j, c.phases[w]? = some (Phase.running j) → ¬ c.holder = some w) ∧
    (∀ j, c.log.countP (isDeliverOf j) ≤ 1) ∧
    (∃ rest, deliveredMsgs c.log ++ rest = (initConfig jobs n).queue) := by
  have hI := inv_of_reachable (inv_init jobs n) hr
  refine ⟨hI.lock, ?_, ?_, ⟨c.queue, hI.fifo⟩⟩
  · intro w j hw hcontra
    have := hI.lock w hcontra
    rw [hw] at this
    simp at this
  · intro j
    have hcnt := congrArg (List.countP (isJobMsg j)) hI.fifo
    rw [List.countP_append, deliveredMsgs_countP_job] at hcnt
    have hinit : ((initConfig jobs n).queue).countP (isJobMsg j) ≤ 1 := by
      simp only [initConfig, List.countP_append, List.countP_map, List.countP_replicate]
      rw [show (isJobMsg j ∘ Message.newJob) = (· == j) from rfl]
      rw [show jobs.countP (· == j) = jobs.count j from rfl]
      have := List.nodup_iff_count_le_one.mp hnd j
      simp [isJobMsg]
      omega
    omega

/-- Witness for C5 at a fresh two-worker, two-job configuration. -/
theorem receive_lock_discipline_witness :
    (∀ w, (initConfig [1, 2] 2).holder = some w →
      (initConfig [1, 2] 2).phases[w]? = some Phase.locked) ∧
    (∀ w j, (initConfig [1, 2] 2).phases[w]? = some (Phase.running j) →
      ¬ (initConfig [1, 2] 2).holder = some w) ∧
    (∀ j, (initConfig [1, 2] 2).log.countP (isDeliverOf j) ≤ 1) ∧
    (∃ rest, deliveredMsgs (initConfig [1, 2] 2).log ++ rest = (initConfig [1, 2] 2).queue) :=
  receive_lock_discipline [1, 2] 2 (initConfig [1, 2] 2) (by decide) (Reachable.refl _)

end Webserver
